import Mathlib

/-!
# Verification of the GameMind hierarchical planning engine

Shallow embedding of the planning subsystem of the GameMind repository:

* `src/llm/subgoal_generator.py` — `SubGoalGenerator` (subgoal parsing, the
  deterministic fallback rule table, task analysis);
* `src/planning/mcts.py` — `MCTSNode` and the `MCTS` engine (selection,
  expansion, simulation, backpropagation);
* `src/planning/planner.py` — `Planner` (configuration reading, orchestration,
  plan extraction, replanning policy).

Python strings are embedded as `List Char`; Python `float` values are embedded
as `ℚ` wherever the program only adds and compares them, and the UCB score
(which uses `math.sqrt`/`math.log`) is embedded in `EReal` so that
`float('inf')` has a faithful image.  Randomness (`np.random.choice`,
`np.random.normal`) is injected as explicit choice/draw streams, and remote
backend responses (the Llama client) are injected as an `Except Unit` value,
so that network failure and the `try/except` recovery paths are visible.
-/

/-- Abbreviation turning a Lean string literal into the `List Char` used to
embed Python strings. -/
def S (s : String) : List Char := s.toList

/-- The whitespace test used by Python's `str.strip` / `str.split` for the
ASCII range (space, tab, newline, carriage return, vertical tab, form feed). -/
def pyIsSpaceChar (c : Char) : Bool :=
  c = ' ' || c = '\t' || c = '\n' || c = '\r' || c = '\x0b' || c = '\x0c'

/-- `s.lstrip()`: drop leading whitespace. -/
def pyLstrip (s : List Char) : List Char := s.dropWhile pyIsSpaceChar

/-- `s.rstrip()`: drop trailing whitespace. -/
def pyRstrip (s : List Char) : List Char :=
  (s.reverse.dropWhile pyIsSpaceChar).reverse

/-- `s.strip()`: drop leading and trailing whitespace. -/
def pyStrip (s : List Char) : List Char := pyRstrip (pyLstrip s)

/-- `s.lower()` (ASCII case folding, which is all the sources use). -/
def pyLower (s : List Char) : List Char := s.map Char.toLower

/-- `s.split('\n')`: split on every newline, keeping empty fragments, as
Python does (`"".split('\n') == [""]`). -/
def splitOnNL : List Char → List (List Char)
  | [] => [[]]
  | c :: rest =>
    let r := splitOnNL rest
    if c = '\n' then [] :: r
    else
      match r with
      | [] => [[c]]
      | h :: t => (c :: h) :: t

/-- `s.startswith(p)` on character lists. -/
def startsWithCL : List Char → List Char → Bool
  | _, [] => true
  | [], _ :: _ => false
  | c :: s, p :: ps => c = p && startsWithCL s ps

/-- Python's substring test `needle in hay`. -/
def strContains (hay needle : List Char) : Bool :=
  startsWithCL hay needle ||
    match hay with
    | [] => false
    | _ :: t => strContains t needle

/-- Fuelled worker for `pySplitWS`; the fuel is the length of the string, so
it never runs out. -/
def pySplitWSF : ℕ → List Char → List (List Char)
  | 0, _ => []
  | _ + 1, [] => []
  | fuel + 1, c :: rest =>
    if pyIsSpaceChar c then pySplitWSF fuel rest
    else
      (c :: rest.takeWhile (fun x => ¬ pyIsSpaceChar x)) ::
        pySplitWSF fuel (rest.dropWhile (fun x => ¬ pyIsSpaceChar x))

/-- `s.split()` with no separator: words between whitespace runs, no empty
fragments. -/
def pySplitWS (s : List Char) : List (List Char) := pySplitWSF s.length s

/-- Python slicing `l[:n]` for a possibly negative `int` bound. -/
def pySliceTo (n : Int) (l : List α) : List α :=
  if 0 ≤ n then l.take n.toNat else l.take (l.length - (-n).toNat)

/-- Decidable equality of `Except` results, used to evaluate the embedded
fallible functions on concrete inputs. -/
instance {ε α : Type} [DecidableEq ε] [DecidableEq α] : DecidableEq (Except ε α) := fun x y =>
  match x, y with
  | .ok a, .ok b =>
    if h : a = b then isTrue (by rw [h]) else isFalse (fun hh => by cases hh; exact h rfl)
  | .error a, .error b =>
    if h : a = b then isTrue (by rw [h]) else isFalse (fun hh => by cases hh; exact h rfl)
  | .ok _, .error _ => isFalse (fun hh => by cases hh)
  | .error _, .ok _ => isFalse (fun hh => by cases hh)

/-! ## `src/llm/subgoal_generator.py` — `SubGoalGenerator` -/

/-- The tuple of enumeration markers tested by
`SubGoalGenerator._parse_subgoals`:
`('1.', '2.', '3.', '4.', '5.', '-', '*', 'â€¢')` (the last entry is the
mojibake bullet exactly as it appears in the source file). -/
def markerTuple : List (List Char) :=
  [S "1.", S "2.", S "3.", S "4.", S "5.", S "-", S "*", S "â€¢"]

/-- One iteration of the `for line in lines` loop of
`SubGoalGenerator._parse_subgoals`.  Returns `none` for a skipped line,
`some fragment` for an appended subgoal, and `.error ()` for the `IndexError`
raised by `line[1]` when the stripped line is a single marker character. -/
def parseLineE (rawLine : List Char) : Except Unit (Option (List Char)) :=
  let line := pyStrip rawLine
  if line = [] then .ok none
  else
    let stripped : Except Unit (List Char) :=
      if markerTuple.any (fun m => startsWithCL line m) then
        match line with
        | [] => .error ()
        | [_] => .error ()
        | _ :: c1 :: _ =>
          .ok (if c1 = '.' then pyStrip (line.drop 2) else pyStrip (line.drop 1))
      else .ok line
    match stripped with
    | .error e => .error e
    | .ok l2 => if l2 ≠ [] ∧ l2.length > 3 then .ok (some l2) else .ok none

/-- The `for line in lines` loop of `SubGoalGenerator._parse_subgoals`,
collecting accepted fragments in order and propagating the `IndexError`. -/
def parseLinesE : List (List Char) → Except Unit (List (List Char))
  | [] => .ok []
  | l :: ls =>
    match parseLineE l with
    | .error e => .error e
    | .ok none => parseLinesE ls
    | .ok (some s) =>
      match parseLinesE ls with
      | .error e => .error e
      | .ok rest => .ok (s :: rest)

/-- `SubGoalGenerator._parse_subgoals(response)`: empty (falsy) responses
yield `[]`; otherwise the stripped response is split on newlines and each line
is processed as in `parseLineE`. -/
def parseSubgoalsE (response : List Char) : Except Unit (List (List Char)) :=
  if response = [] then .ok []
  else parseLinesE (splitOnNL (pyStrip response))

/-- The `fallback_subgoals` dict of
`SubGoalGenerator._generate_fallback_subgoals`, as an association list in
insertion (= iteration) order. -/
def fallbackTable : List (List Char × List (List Char)) :=
  [ (S "survive", [S "find food", S "find shelter", S "avoid enemies", S "maintain health"]),
    (S "collect wood", [S "find trees", S "chop wood", S "gather resources", S "return to base"]),
    (S "make wood_pickaxe", [S "collect wood", S "find workbench", S "craft pickaxe", S "test tool"]),
    (S "place furnace", [S "collect stone", S "find location", S "place building", S "verify placement"]),
    (S "defeat zombie", [S "find weapon", S "approach enemy", S "attack", S "retreat if needed"]),
    (S "explore", [S "move around", S "map area", S "find resources", S "avoid danger"]) ]

/-- `SubGoalGenerator._generate_fallback_subgoals(goal)`: first key with
`key.lower() in goal.lower()` wins, else the generic default list. -/
def generateFallbackSubgoals (goal : List Char) : List (List Char) :=
  match fallbackTable.find? (fun kv => strContains (pyLower goal) (pyLower kv.1)) with
  | some kv => kv.2
  | none => [S "explore environment", S "gather resources", S "avoid danger", S "complete objective"]

/-- The state of a `SubGoalGenerator` that the planning claims depend on:
`self.enabled` and whether `self.llm_client` is non-`None`.  (The model name,
token limit, temperature and prompt templates only shape the remote request,
whose response is injected as a parameter below.) -/
structure SubGoalGenerator where
  enabled : Bool
  hasClient : Bool
deriving DecidableEq, Repr

/-- `SubGoalGenerator.__init__` followed by `_initialize_llm`:
`enabled = config['llm'].get('enabled', True)`; when enabled, importing the
Llama client either succeeds (client set) or raises `ImportError`, which sets
`enabled = False` and leaves the client `None`. -/
def subGoalGeneratorInit (llmEnabled : Option Bool) (clientImportOk : Bool) : SubGoalGenerator :=
  if llmEnabled.getD true then
    if clientImportOk then ⟨true, true⟩ else ⟨false, false⟩
  else ⟨false, false⟩

/-- `SubGoalGenerator.generate_subgoals(goal, current_state)`.  The remote
call `self.llm_client.generate(prompt, ...)` is injected as
`backend : Except Unit (List Char)` (`.error` = any exception raised by the
request).  The `try/except` catches both a backend failure and the
`IndexError` of `_parse_subgoals` and falls back to the rule table. -/
def generate_subgoals (g : SubGoalGenerator) (backend : Except Unit (List Char))
    (goal : List Char) (_currentState : Option σ) : List (List Char) :=
  if !g.enabled || !g.hasClient then generateFallbackSubgoals goal
  else
    match backend with
    | .error _ => generateFallbackSubgoals goal
    | .ok response =>
      match parseSubgoalsE response with
      | .error _ => generateFallbackSubgoals goal
      | .ok subgoals => subgoals.take 5

/-- The dict returned by `SubGoalGenerator.analyze_task`. -/
structure TaskAnalysis where
  task : List Char
  analysis : List Char
  complexity : List Char
  estimated_steps : Int
deriving DecidableEq, Repr

/-- `SubGoalGenerator._estimate_complexity(analysis)`. -/
def estimateComplexity (analysis : List Char) : List Char :=
  if analysis = [] then S "unknown"
  else
    let words := pySplitWS (pyLower analysis)
    if words.length < 10 then S "simple"
    else if words.length < 20 then S "medium"
    else S "complex"

/-- The `action_words` vocabulary of `SubGoalGenerator._estimate_steps`. -/
def actionWords : List (List Char) :=
  [S "collect", S "craft", S "place", S "defeat", S "find", S "move", S "use"]

/-- `SubGoalGenerator._estimate_steps(analysis)`: count the action words that
occur as substrings of the lowered analysis, clamped to `[2, 6]`. -/
def estimateSteps (analysis : List Char) : Int :=
  if analysis = [] then 3
  else
    let count : Int := (actionWords.filter (fun w => strContains (pyLower analysis) w)).length
    max 2 (min count 6)

/-- `SubGoalGenerator._analyze_task_fallback(task)`. -/
def analyzeTaskFallback (task : List Char) : TaskAnalysis :=
  { task := task, analysis := S "Basic task analysis",
    complexity := S "medium", estimated_steps := 3 }

/-- `SubGoalGenerator.analyze_task(task)`, with the remote response injected
as for `generate_subgoals`. -/
def analyze_task (g : SubGoalGenerator) (backend : Except Unit (List Char))
    (task : List Char) : TaskAnalysis :=
  if !g.enabled || !g.hasClient then analyzeTaskFallback task
  else
    match backend with
    | .error _ => analyzeTaskFallback task
    | .ok response =>
      { task := task, analysis := response,
        complexity := estimateComplexity response,
        estimated_steps := estimateSteps response }

/-! ## `src/planning/mcts.py` — `MCTSNode` and the `MCTS` engine

The Python tree is a pointer structure mutated in place; selection returns a
node pointer and backpropagation follows `parent` links.  The embedding is a
pure tree: a tree position is the list of child indices from the root, the
selection phase returns such a path, and expansion/backpropagation rebuild the
tree along the path (backpropagation updates every node on the path — exactly
the ancestors the Python loop visits). -/

/-- `MCTSNode`: `state`, `action` (`None` only for the root), `visits`,
`value`, `depth` (set to `parent.depth + 1` on construction), `children`.
The `parent` pointer is represented by the tree structure itself. -/
inductive MCTSNode (σ : Type) : Type where
  | mk (state : σ) (action : Option (List Char)) (visits : ℕ) (value : ℚ)
      (depth : ℕ) (children : List (MCTSNode σ))

/-- `self.state`. -/
def MCTSNode.state : MCTSNode σ → σ
  | .mk st _ _ _ _ _ => st

/-- `self.action`. -/
def MCTSNode.action : MCTSNode σ → Option (List Char)
  | .mk _ a _ _ _ _ => a

/-- `self.visits`. -/
def MCTSNode.visits : MCTSNode σ → ℕ
  | .mk _ _ vi _ _ _ => vi

/-- `self.value`. -/
def MCTSNode.value : MCTSNode σ → ℚ
  | .mk _ _ _ val _ _ => val

/-- `self.depth`. -/
def MCTSNode.depth : MCTSNode σ → ℕ
  | .mk _ _ _ _ d _ => d

/-- `self.children`. -/
def MCTSNode.children : MCTSNode σ → List (MCTSNode σ)
  | .mk _ _ _ _ _ cs => cs

/-- The root node allocated by `_refine_plan_with_mcts`:
`MCTSNode(state=observation, action=None, parent=None)`. -/
def mkRoot (observation : σ) : MCTSNode σ :=
  .mk observation none 0 0 0 []

/-- `MCTSNode.add_child(state, action)`: append a fresh child (zero visits and
value, `depth = self.depth + 1`).  In `MCTS.expand` the child state is the
parent's state (copied), so the embedding reuses the parent's state. -/
def MCTSNode.addChild (a : List Char) : MCTSNode σ → MCTSNode σ
  | .mk st ac vi val d cs => .mk st ac vi val d (cs ++ [.mk st (some a) 0 0 (d + 1) []])

/-- `MCTSNode.is_fully_expanded(available_actions)`:
`len(self.children) >= len(available_actions)`. -/
def MCTSNode.is_fully_expanded (n : MCTSNode σ) (availableActions : List (List Char)) : Bool :=
  decide (availableActions.length ≤ n.children.length)

/-- `MCTSNode.get_ucb_value(exploration_constant)`, for a node with
`parentVisits = self.parent.visits`: `float('inf')` for an unvisited node,
otherwise `value / visits + c * sqrt(log(parent.visits) / visits)`.
`float` arithmetic is embedded in `EReal` (via `ℝ`) so that infinity is
first-class. -/
noncomputable def get_ucb_value (ec : ℚ) (parentVisits : ℕ) (n : MCTSNode σ) : EReal :=
  if n.visits = 0 then ⊤
  else
    (((((n.value : ℝ) / (n.visits : ℝ)) +
        (ec : ℝ) * Real.sqrt (Real.log (parentVisits : ℝ) / (n.visits : ℝ))) : ℝ) : EReal)

/-- Worker for `bestChildIdx`: Python's `max(children, key=f)` keeps the
current best and replaces it only on a strictly larger key, so the first
maximum wins ties. -/
noncomputable def bestIdxAux (f : MCTSNode σ → EReal) :
    ℕ → EReal → ℕ → List (MCTSNode σ) → ℕ
  | bi, _, _, [] => bi
  | bi, bv, i, c :: cs =>
    if bv < f c then bestIdxAux f i (f c) (i + 1) cs
    else bestIdxAux f bi bv (i + 1) cs

/-- Index (into `children`) of `max(node.children, key=ucb)`. -/
noncomputable def bestChildIdx (f : MCTSNode σ → EReal) (c : MCTSNode σ)
    (cs : List (MCTSNode σ)) : ℕ :=
  bestIdxAux f 0 (f c) 1 cs

/-- `MCTS.select(node)`, returning the index path from the given node to the
selected node.  The loop runs `while node.children`, then — exactly as in the
source — tests `node.is_fully_expanded([])` against the **empty** list (which
always passes) before descending to the UCB-maximizing child.  The `fuel`
argument bounds the descent; callers pass a bound that exceeds any possible
tree height, so the loop is never cut short. -/
noncomputable def selectPath (ec : ℚ) : ℕ → MCTSNode σ → List ℕ
  | 0, _ => []
  | fuel + 1, n =>
    match n.children with
    | [] => []
    | c :: cs =>
      if n.is_fully_expanded [] then
        let i := bestChildIdx (get_ucb_value ec n.visits) c cs
        i :: selectPath ec fuel ((c :: cs).getD i c)
      else []

/-- Replace the `i`-th element of a list (identity when out of range). -/
def modifyIdx (f : α → α) (i : ℕ) (l : List α) : List α :=
  match l, i with
  | [], _ => []
  | x :: xs, 0 => f x :: xs
  | x :: xs, i + 1 => x :: modifyIdx f i xs

/-- The node at an index path (clamped to the current node when an index is
out of range; the paths produced by `selectPath` are always in range). -/
def nodeAt : MCTSNode σ → List ℕ → MCTSNode σ
  | n, [] => n
  | n, i :: rest =>
    match n.children with
    | [] => n
    | c :: cs => nodeAt ((c :: cs).getD i c) rest

/-- Rebuild the tree with `addChild a` applied at the node addressed by the
path. -/
def addChildAt (a : List Char) : MCTSNode σ → List ℕ → MCTSNode σ
  | n, [] => n.addChild a
  | .mk st ac vi val d cs, i :: rest =>
    .mk st ac vi val d (modifyIdx (fun c => addChildAt a c rest) i cs)

/-- `MCTS.backpropagate(node, value)`: the Python loop walks from the
addressed node through every ancestor up to the root, doing `visits += 1` and
`value += v` at each; the embedding applies that update to every node on the
path (the addressed node and all its ancestors, root included). -/
def backpropAt (v : ℚ) : MCTSNode σ → List ℕ → MCTSNode σ
  | .mk st ac vi val d cs, [] => .mk st ac (vi + 1) (val + v) d cs
  | .mk st ac vi val d cs, i :: rest =>
    .mk st ac (vi + 1) (val + v) d (modifyIdx (fun c => backpropAt v c rest) i cs)

/-- `MCTS.expand(node, available_actions)` at the node addressed by `path`:
no-op on an empty action set; otherwise the unrepresented actions are
collected and — if any remain — one is chosen (`np.random.choice` is injected
as the index `pick`, reduced mod the number of candidates) and attached as a
new child.  Returns the updated tree and the path of the node the Python call
returns (the new child, or the unchanged node). -/
def expandStep (subgoals : List (List Char)) (pick : ℕ) (root : MCTSNode σ)
    (path : List ℕ) : MCTSNode σ × List ℕ :=
  if subgoals = [] then (root, path)
  else
    let node := nodeAt root path
    let expandedActions := node.children.map MCTSNode.action
    let unexpanded := subgoals.filter (fun a => ¬ expandedActions.contains (some a))
    match unexpanded with
    | [] => (root, path)
    | u :: us =>
      let a := (u :: us).getD (pick % (u :: us).length) u
      (addChildAt a root path, path ++ [node.children.length])

/-- `MCTS.simulate(node)`: a 10-step loop summing `np.random.normal(0, 1)`
draws (the node is not inspected); the draws are injected as a stream. -/
def simulate (draws : ℕ → ℚ) : ℚ :=
  (List.range 10).foldl (fun acc i => acc + draws i) 0

/-- One iteration of the MCTS loop in `Planner._refine_plan_with_mcts`:
select; expand if `node.depth < max_depth`; simulate; backpropagate.  The
selection fuel `root.visits + 1` is always sufficient: each earlier iteration
deepened the tree by at most one level and bumped `root.visits` by one, so the
tree height never exceeds `root.visits`. -/
noncomputable def planIteration (ec : ℚ) (maxDepth : Int) (subgoals : List (List Char))
    (pick : ℕ) (simVal : ℚ) (root : MCTSNode σ) : MCTSNode σ :=
  let path := selectPath ec (root.visits + 1) root
  let rp :=
    if ((nodeAt root path).depth : Int) < maxDepth then
      expandStep subgoals pick root path
    else (root, path)
  backpropAt simVal rp.1 rp.2

/-- The `for _ in range(self.mcts_simulations)` loop of
`Planner._refine_plan_with_mcts`; `i` numbers the iterations so each consumes
its own entry of the choice/draw streams. -/
noncomputable def planLoop (ec : ℚ) (maxDepth : Int) (subgoals : List (List Char))
    (picks : ℕ → ℕ) (draws : ℕ → ℕ → ℚ) : ℕ → ℕ → MCTSNode σ → MCTSNode σ
  | _, 0, root => root
  | i, k + 1, root =>
    planLoop ec maxDepth subgoals picks draws (i + 1) k
      (planIteration ec maxDepth subgoals (picks i) (simulate (draws i)) root)

/-- `max(current.children, key=lambda c: c.visits)` — first maximum wins. -/
def maxByVisits (c : MCTSNode σ) (cs : List (MCTSNode σ)) : MCTSNode σ :=
  cs.foldl (fun best x => if best.visits < x.visits then x else best) c

/-- The plan-extraction loop of `Planner._refine_plan_with_mcts`: walk to the
most-visited child while children exist, appending `best_child.action`
whenever it is truthy (not `None` and not the empty string).  `fuel` bounds
the walk; callers pass a bound exceeding the tree height. -/
def extractPlan : ℕ → MCTSNode σ → List (List Char)
  | 0, _ => []
  | fuel + 1, n =>
    match n.children with
    | [] => []
    | c :: cs =>
      let best := maxByVisits c cs
      (match best.action with
       | some a => if a = [] then [] else [a]
       | none => []) ++ extractPlan fuel best

/-! ## `src/planning/planner.py` — `Planner` -/

/-- The `subgoal_generation` sub-dict of the planner config (fields absent
from the dict are `none`). -/
structure SubgoalGenRaw where
  enabled : Option Bool
  max_subgoals : Option Int
deriving DecidableEq, Repr

/-- The `llm` sub-dict of the config, restricted to the field the
`SubGoalGenerator` state depends on. -/
structure LlmRaw where
  enabled : Option Bool
deriving DecidableEq, Repr

/-- The config dict handed to `Planner.__init__`, restricted to the keys it
reads (a missing key is `none`; `config.get(k, d)` is `Option.getD`). -/
structure RawConfig where
  enabled : Option Bool
  mcts_simulations : Option Int
  max_depth : Option Int
  exploration_constant : Option ℚ
  subgoal_generation : Option SubgoalGenRaw
  llm : Option LlmRaw
deriving DecidableEq, Repr

/-- The state of a constructed `Planner`. -/
structure Planner where
  enabled : Bool
  mcts_simulations : Int
  max_depth : Int
  exploration_constant : ℚ
  subgoal_enabled : Bool
  max_subgoals : Int
  llm : Option SubGoalGenerator
deriving DecidableEq, Repr

/-- `Planner.__init__(config)`.  Every field is read with `config.get` and a
default; **no value is validated and no exception is ever raised**.  When
subgoal generation is enabled, `SubGoalGenerator(config)` is constructed
unless importing it raises `ImportError` (injected as `genImportOk`);
`clientImportOk` likewise injects the Llama-client import inside the
generator. -/
def plannerInit (config : RawConfig) (genImportOk clientImportOk : Bool) : Planner :=
  let sg := config.subgoal_generation.getD ⟨none, none⟩
  let subgoalEnabled := sg.enabled.getD true
  { enabled := config.enabled.getD true
    mcts_simulations := config.mcts_simulations.getD 100
    max_depth := config.max_depth.getD 10
    exploration_constant := config.exploration_constant.getD 1
    subgoal_enabled := subgoalEnabled
    max_subgoals := sg.max_subgoals.getD 5
    llm :=
      if subgoalEnabled && genImportOk then
        some (subGoalGeneratorInit ((config.llm.map LlmRaw.enabled).getD none) clientImportOk)
      else none }

/-- The `basic_subgoals` dict of `Planner._generate_basic_subgoals`, in
insertion order. -/
def basicTable : List (List Char × List (List Char)) :=
  [ (S "survive", [S "find food", S "find shelter", S "avoid enemies"]),
    (S "collect wood", [S "find trees", S "chop wood", S "gather resources"]),
    (S "make wood_pickaxe", [S "collect wood", S "craft pickaxe", S "use workbench"]),
    (S "place furnace", [S "collect stone", S "find location", S "place building"]),
    (S "defeat zombie", [S "find weapon", S "approach enemy", S "attack"]) ]

/-- `Planner._generate_basic_subgoals(goal)`: first key with
`key in goal.lower()` wins, else the generic default. -/
def generateBasicSubgoals (goal : List Char) : List (List Char) :=
  match basicTable.find? (fun kv => strContains (pyLower goal) kv.1) with
  | some kv => kv.2
  | none => [S "explore", S "gather resources", S "survive"]

/-- `Planner._generate_subgoals(observation, goal)`: without a generator (or
with subgoal generation disabled) fall back to the basic table; otherwise ask
the generator and truncate to `max_subgoals`.  (The generator in this
embedding is total, so the `except` branch around it is unreachable.) -/
def plannerGenerateSubgoals (p : Planner) (observation : σ) (goal : List Char)
    (backend : Except Unit (List Char)) : List (List Char) :=
  match p.llm with
  | none => generateBasicSubgoals goal
  | some g =>
    if !p.subgoal_enabled then generateBasicSubgoals goal
    else pySliceTo p.max_subgoals (generate_subgoals g backend goal (some observation))

/-- `Planner._refine_plan_with_mcts(observation, subgoals)`: run
`mcts_simulations` iterations from a fresh root, then extract the
most-visited path; fall back to the unmodified subgoal list when the
extracted plan is empty.  The extraction fuel `visits + 1` exceeds the tree
height (each iteration adds at most one level and one root visit). -/
noncomputable def refinePlanWithMCTS (p : Planner) (observation : σ)
    (subgoals : List (List Char)) (picks : ℕ → ℕ) (draws : ℕ → ℕ → ℚ) :
    List (List Char) :=
  if subgoals = [] then []
  else
    let root := mkRoot observation
    let final := planLoop p.exploration_constant p.max_depth subgoals picks draws 0
      p.mcts_simulations.toNat root
    let best := extractPlan (final.visits + 1) final
    if best = [] then subgoals else best

/-- `Planner.plan(observation, goal)`. -/
noncomputable def plannerPlan (p : Planner) (observation : σ) (goal : List Char)
    (backend : Except Unit (List Char)) (picks : ℕ → ℕ) (draws : ℕ → ℕ → ℚ) :
    List (List Char) :=
  if !p.enabled then []
  else
    let subgoals := plannerGenerateSubgoals p observation goal backend
    if subgoals ≠ [] then refinePlanWithMCTS p observation subgoals picks draws
    else []

/-- `Planner.update_plan(current_state, executed_action, reward)`:
replan with goal `"recover from failure"` on negative reward, else `None`. -/
noncomputable def updatePlan (p : Planner) (currentState : σ)
    (_executedAction : List Char) (reward : ℚ) (backend : Except Unit (List Char))
    (picks : ℕ → ℕ) (draws : ℕ → ℕ → ℚ) : Option (List (List Char)) :=
  if reward < 0 then
    some (plannerPlan p currentState (S "recover from failure") backend picks draws)
  else none

/-! ## The shape invariant of the trees built by `_refine_plan_with_mcts`

Because selection tests `is_fully_expanded` against the empty list, every
search tree the planner builds is a single path: each node has at most one
child, every non-root node carries an action from the candidate subgoal list,
depths increase by one along the path, and a link is only ever created below a
node whose depth is less than `max_depth`.  `ChainBelow allowed maxD k n`
states this for the subtree rooted at `n` with exactly `k` links below `n`. -/

inductive ChainBelow (allowed : List (List Char)) (maxD : Int) :
    ℕ → MCTSNode σ → Prop where
  | leaf : ∀ (st : σ) a vi val d,
      ChainBelow allowed maxD 0 (.mk st a vi val d [])
  | link : ∀ (st : σ) a vi val d (c : MCTSNode σ) k,
      (∃ x ∈ allowed, c.action = some x) →
      c.depth = d + 1 →
      (d : Int) < maxD →
      ChainBelow allowed maxD k c →
      ChainBelow allowed maxD (k + 1) (.mk st a vi val d [c])

/-! ## Concrete instances used by individual claims -/

/-- A root with exactly one (unvisited) child, used to exercise `select`. -/
def c1Tree : MCTSNode Unit :=
  .mk () none 1 0 0 [.mk () (some (S "find weapon")) 0 0 1 []]

/-- A three-action candidate set: more actions than `c1Tree` has children. -/
def c1Actions : List (List Char) :=
  [S "find weapon", S "approach enemy", S "attack"]

/-- A config dict carrying invalid values (`mcts_simulations = 0`,
`max_subgoals = 0`). -/
def cfgC3 : RawConfig :=
  { enabled := some true, mcts_simulations := some 0, max_depth := some 3,
    exploration_constant := some 1,
    subgoal_generation := some { enabled := some false, max_subgoals := some 0 },
    llm := none }

/-- The end-to-end scenario config: oracle disabled
(`subgoal_generation.enabled = false`), `mcts_simulations = 50`,
`max_depth = 3`, `exploration_constant = 1.0`, `max_subgoals` left at its
default of 5. -/
def cfgC4 : RawConfig :=
  { enabled := none, mcts_simulations := some 50, max_depth := some 3,
    exploration_constant := some 1,
    subgoal_generation := some { enabled := some false, max_subgoals := none },
    llm := none }

/-- The planner constructed from `cfgC4`. -/
def pC4 : Planner := plannerInit cfgC4 true true

/-! ## Unfolding lemmas for the recursive tree functions -/

theorem selectPath_zero (ec : ℚ) (n : MCTSNode σ) : selectPath ec 0 n = [] := rfl

theorem selectPath_leaf (ec : ℚ) (fuel : ℕ) (st : σ) (a : Option (List Char)) (vi : ℕ)
    (val : ℚ) (d : ℕ) : selectPath ec fuel (.mk st a vi val d []) = [] := by
  cases fuel <;> rfl

theorem selectPath_cons (ec : ℚ) (fuel : ℕ) (st : σ) (a : Option (List Char)) (vi : ℕ)
    (val : ℚ) (d : ℕ) (c : MCTSNode σ) (cs : List (MCTSNode σ)) :
    selectPath ec (fuel + 1) (.mk st a vi val d (c :: cs)) =
      (bestChildIdx (get_ucb_value ec vi) c cs) ::
        selectPath ec fuel ((c :: cs).getD (bestChildIdx (get_ucb_value ec vi) c cs) c) := by
  show (if (MCTSNode.mk st a vi val d (c :: cs)).is_fully_expanded [] then
          (let i := bestChildIdx (get_ucb_value ec vi) c cs
           i :: selectPath ec fuel ((c :: cs).getD i c))
        else []) = _
  rw [if_pos (by simp [MCTSNode.is_fully_expanded])]

theorem nodeAt_nil (n : MCTSNode σ) : nodeAt n [] = n := rfl

theorem nodeAt_cons (st : σ) (a : Option (List Char)) (vi : ℕ) (val : ℚ) (d : ℕ)
    (c : MCTSNode σ) (cs : List (MCTSNode σ)) (i : ℕ) (rest : List ℕ) :
    nodeAt (.mk st a vi val d (c :: cs)) (i :: rest) = nodeAt ((c :: cs).getD i c) rest := rfl

theorem nodeAt_leaf (st : σ) (a : Option (List Char)) (vi : ℕ) (val : ℚ) (d : ℕ)
    (p : List ℕ) : nodeAt (.mk st a vi val d []) p = .mk st a vi val d [] := by
  cases p <;> rfl

/-! ## Lemmas about the Python string primitives -/

theorem pyLstrip_cons_space (c : Char) (t : List Char) (h : pyIsSpaceChar c = true) :
    pyLstrip (c :: t) = pyLstrip t := by
  simp [pyLstrip, List.dropWhile_cons, h]

theorem pyLstrip_cons_nonspace (c : Char) (t : List Char) (h : pyIsSpaceChar c = false) :
    pyLstrip (c :: t) = c :: t := by
  simp [pyLstrip, List.dropWhile_cons, h]

theorem pyRstrip_cons (c : Char) (t : List Char) :
    pyRstrip (c :: t) =
      if pyRstrip t = [] then (if pyIsSpaceChar c then [] else [c])
      else c :: pyRstrip t := by
  have hrev : pyRstrip t = [] ↔ List.dropWhile pyIsSpaceChar t.reverse = [] := by
    simp [pyRstrip]
  by_cases h : pyRstrip t = []
  · rw [if_pos h]
    simp only [pyRstrip, List.reverse_cons, List.dropWhile_append, hrev.mp h,
      List.isEmpty_nil, if_true, List.dropWhile_cons, List.dropWhile_nil]
    by_cases hc : pyIsSpaceChar c = true <;> simp [hc]
  · rw [if_neg h]
    have h' : (List.dropWhile pyIsSpaceChar t.reverse).isEmpty = false := by
      simpa [List.isEmpty_iff] using fun hx => h (hrev.mpr hx)
    simp [pyRstrip, List.reverse_cons, List.dropWhile_append, h']

theorem pyRstrip_cons_nonspace (c : Char) (t : List Char) (h : pyIsSpaceChar c = false) :
    pyRstrip (c :: t) = c :: pyRstrip t := by
  rw [pyRstrip_cons]
  by_cases h2 : pyRstrip t = [] <;> simp [h2, h]

theorem pyStrip_cons_nonspace (c : Char) (t : List Char) (h : pyIsSpaceChar c = false) :
    pyStrip (c :: t) = c :: pyRstrip t := by
  rw [pyStrip, pyLstrip_cons_nonspace c t h, pyRstrip_cons_nonspace c t h]

theorem dropWhile_self_idem (p : Char → Bool) (l : List Char) :
    List.dropWhile p (List.dropWhile p l) = List.dropWhile p l := by
  cases h : List.dropWhile p l with
  | nil => rfl
  | cons a as =>
    have hne : List.dropWhile p l ≠ [] := by simp [h]
    have ha : ¬ p a = true := by
      have := List.head_dropWhile_not p l hne
      simpa [h] using this
    simp [List.dropWhile_cons, ha]

theorem pyRstrip_idem (s : List Char) : pyRstrip (pyRstrip s) = pyRstrip s := by
  simp [pyRstrip, List.reverse_reverse, dropWhile_self_idem]

theorem pyLstrip_pyRstrip_comm (s : List Char) :
    pyLstrip (pyRstrip s) = pyRstrip (pyLstrip s) := by
  induction s with
  | nil => rfl
  | cons c t ih =>
    by_cases hc : pyIsSpaceChar c = true
    · rw [pyLstrip_cons_space c t hc, pyRstrip_cons]
      by_cases h2 : pyRstrip t = []
      · rw [if_pos h2, if_pos hc, ← ih, h2]
      · rw [if_neg h2, pyLstrip_cons_space c _ hc, ih]
    · have hc' : pyIsSpaceChar c = false := by simpa using hc
      rw [pyRstrip_cons_nonspace c t hc', pyLstrip_cons_nonspace c _ hc',
        pyLstrip_cons_nonspace c t hc', pyRstrip_cons_nonspace c t hc']

theorem pyStrip_pyRstrip (s : List Char) : pyStrip (pyRstrip s) = pyStrip s := by
  show pyRstrip (pyLstrip (pyRstrip s)) = pyRstrip (pyLstrip s)
  rw [pyLstrip_pyRstrip_comm, pyRstrip_idem]

/-! ## Claim C6 — response parsing -/

/-- C6 (counterexample): the claim says a leading marker consisting of *any*
digit followed by `'.'` is stripped; `_parse_subgoals` only tests the literal
prefixes `'1.'`–`'5.'`, so the line `"6. Gather wood"` keeps its marker
instead of parsing to `"Gather wood"`. -/
theorem C6_counterexample :
    parseSubgoalsE (S "6. Gather wood") = .ok [S "6. Gather wood"] ∧
    parseSubgoalsE (S "6. Gather wood") ≠ .ok [S "Gather wood"] := by
  exact ⟨by decide, by decide⟩

/-- C6 (amended): parsing splits the response into lines, drops blank lines,
strips a leading enumeration marker, discards fragments of fewer than 4
characters, and truncates to 5 entries — where the markers are exactly the
literal prefixes `'1.'`–`'5.'` (not an arbitrary digit: `'6.'` is kept), `'-'`
and `'*'` (each stripping one character, or two when the next character is
`'.'`), and the stray three-character byte sequence `'â€¢'` (of which only the
first character is stripped, leaving `'€¢…'` in the fragment); the claimed
example parses to `["Find trees", "Chop wood", "Return"]`.  Stated as:
(1) a line `d. rest` with `d ∈ '1'..'5'` yields the stripped remainder iff it
is long enough; (2) a line `-rest`/`*rest` whose second character is not `'.'`
(and which does not strip to a bare marker — that raises, see C10) yields the
stripped remainder of `rest`; (3) a line starting with the bullet bytes
`'â'`,`'€'`,`'¢'` loses only the first byte; (4) `'-'` followed by `'.'`
strips two characters, like the digit branch; (5) a line that strips to
nothing is skipped; (6) a markerless stripped line is kept iff longer than 3
characters; (7) the claimed example, through `generate_subgoals`;
(8) truncation of six accepted lines to five. -/
theorem C6_amended_parse :
    (∀ (d : Char) (rest : List Char), d ∈ S "12345" →
        parseLineE (d :: '.' :: rest) =
          (if pyStrip rest ≠ [] ∧ (pyStrip rest).length > 3
           then .ok (some (pyStrip rest)) else .ok none)) ∧
    (∀ (c c1 : Char) (rest : List Char), c ∈ S "-*" → c1 ≠ '.' →
        pyRstrip (c1 :: rest) ≠ [] →
        parseLineE (c :: c1 :: rest) =
          (if pyStrip (c1 :: rest) ≠ [] ∧ (pyStrip (c1 :: rest)).length > 3
           then .ok (some (pyStrip (c1 :: rest))) else .ok none)) ∧
    (∀ rest : List Char,
        parseLineE ('â' :: '€' :: '¢' :: rest) =
          (if ('€' :: '¢' :: pyRstrip rest) ≠ [] ∧
              ('€' :: '¢' :: pyRstrip rest).length > 3
           then .ok (some ('€' :: '¢' :: pyRstrip rest)) else .ok none)) ∧
    parseLineE (S "-.abcd") = .ok (some (S "abcd")) ∧
    (∀ rawLine : List Char, pyStrip rawLine = [] → parseLineE rawLine = .ok none) ∧
    (∀ line : List Char, pyStrip line = line →
        markerTuple.any (fun m => startsWithCL line m) = false →
        parseLineE line =
          (if line ≠ [] ∧ line.length > 3 then .ok (some line) else .ok none)) ∧
    generate_subgoals ⟨true, true⟩ (.ok (S "1. Find trees\n2. Chop wood\n\n3. Return"))
        (S "collect wood") (none : Option Unit)
      = [S "Find trees", S "Chop wood", S "Return"] ∧
    (generate_subgoals ⟨true, true⟩
        (.ok (S "1. aaaa\n2. bbbb\n3. cccc\n4. dddd\n5. eeee\nffff gggg"))
        (S "g") (none : Option Unit)).length = 5 := by
  refine ⟨?_, ?_, ?_, by decide, ?_, ?_, by decide, by decide⟩
  · intro d rest hd
    have hdot : pyIsSpaceChar '.' = false := by decide
    have hmain : ∀ (hnd : pyIsSpaceChar d = false)
        (hmark : markerTuple.any
          (fun m => startsWithCL (d :: '.' :: pyRstrip rest) m) = true),
        parseLineE (d :: '.' :: rest) =
          (if pyStrip rest ≠ [] ∧ (pyStrip rest).length > 3
           then .ok (some (pyStrip rest)) else .ok none) := by
      intro hnd hmark
      have hstrip : pyStrip (d :: '.' :: rest) = d :: '.' :: pyRstrip rest := by
        rw [pyStrip_cons_nonspace d _ hnd, pyRstrip_cons_nonspace '.' rest hdot]
      simp only [parseLineE]
      rw [hstrip]
      rw [if_neg (List.cons_ne_nil _ _), if_pos hmark]
      show (match (Except.ok (if '.' = '.' then pyStrip ((d :: '.' :: pyRstrip rest).drop 2)
              else pyStrip ((d :: '.' :: pyRstrip rest).drop 1)) : Except Unit (List Char)) with
            | Except.error e => Except.error e
            | Except.ok l2 =>
              if l2 ≠ [] ∧ l2.length > 3 then Except.ok (some l2) else Except.ok none) = _
      rw [if_pos rfl]
      show (if pyStrip ((d :: '.' :: pyRstrip rest).drop 2) ≠ [] ∧
              (pyStrip ((d :: '.' :: pyRstrip rest).drop 2)).length > 3
            then Except.ok (some (pyStrip ((d :: '.' :: pyRstrip rest).drop 2)))
            else Except.ok none) = _
      have hdrop : (d :: '.' :: pyRstrip rest).drop 2 = pyRstrip rest := rfl
      rw [hdrop, pyStrip_pyRstrip]
    have hd5 : d = '1' ∨ d = '2' ∨ d = '3' ∨ d = '4' ∨ d = '5' := by
      have : (S "12345") = ['1', '2', '3', '4', '5'] := by decide
      rw [this] at hd
      simpa using hd
    rcases hd5 with rfl | rfl | rfl | rfl | rfl
    · exact hmain (by decide) (by simp [markerTuple, startsWithCL, S])
    · exact hmain (by decide) (by simp [markerTuple, startsWithCL, S])
    · exact hmain (by decide) (by simp [markerTuple, startsWithCL, S])
    · exact hmain (by decide) (by simp [markerTuple, startsWithCL, S])
    · exact hmain (by decide) (by simp [markerTuple, startsWithCL, S])
  · intro c c1 rest hc hdot hne
    have hc2 : c = '-' ∨ c = '*' := by
      have hs : (S "-*") = ['-', '*'] := by decide
      rw [hs] at hc
      simpa using hc
    have hcns : pyIsSpaceChar c = false := by
      rcases hc2 with rfl | rfl <;> decide
    obtain ⟨t', ht⟩ : ∃ t', pyRstrip (c1 :: rest) = c1 :: t' := by
      by_cases h2 : pyRstrip rest = []
      · by_cases hsp : pyIsSpaceChar c1 = true
        · exact absurd (by rw [pyRstrip_cons, if_pos h2, if_pos hsp]) hne
        · exact ⟨[], by rw [pyRstrip_cons, if_pos h2, if_neg hsp]⟩
      · exact ⟨pyRstrip rest, by rw [pyRstrip_cons, if_neg h2]⟩
    have hstrip : pyStrip (c :: c1 :: rest) = c :: c1 :: t' := by
      rw [pyStrip_cons_nonspace c _ hcns, ht]
    have hmark : markerTuple.any (fun m => startsWithCL (c :: c1 :: t') m) = true := by
      rcases hc2 with rfl | rfl <;> simp [markerTuple, startsWithCL, S]
    simp only [parseLineE]
    rw [hstrip]
    rw [if_neg (List.cons_ne_nil _ _), if_pos hmark]
    show (match (Except.ok (if c1 = '.' then pyStrip ((c :: c1 :: t').drop 2)
            else pyStrip ((c :: c1 :: t').drop 1)) : Except Unit (List Char)) with
          | Except.error e => Except.error e
          | Except.ok l2 =>
            if l2 ≠ [] ∧ l2.length > 3 then Except.ok (some l2) else Except.ok none) = _
    rw [if_neg hdot]
    show (if pyStrip ((c :: c1 :: t').drop 1) ≠ [] ∧
            (pyStrip ((c :: c1 :: t').drop 1)).length > 3
          then Except.ok (some (pyStrip ((c :: c1 :: t').drop 1)))
          else Except.ok none) = _
    have hdrop : (c :: c1 :: t').drop 1 = c1 :: t' := rfl
    rw [hdrop, ← ht, pyStrip_pyRstrip]
  · intro rest
    have hstrip : pyStrip ('â' :: '€' :: '¢' :: rest)
        = 'â' :: '€' :: '¢' :: pyRstrip rest := by
      rw [pyStrip_cons_nonspace _ _ (by decide), pyRstrip_cons_nonspace _ _ (by decide),
        pyRstrip_cons_nonspace _ _ (by decide)]
    have hmark : markerTuple.any
        (fun m => startsWithCL ('â' :: '€' :: '¢' :: pyRstrip rest) m) = true := by
      simp [markerTuple, startsWithCL, S]
    simp only [parseLineE]
    rw [hstrip]
    rw [if_neg (List.cons_ne_nil _ _), if_pos hmark]
    show (match (Except.ok (if '€' = '.'
            then pyStrip (('â' :: '€' :: '¢' :: pyRstrip rest).drop 2)
            else pyStrip (('â' :: '€' :: '¢' :: pyRstrip rest).drop 1))
            : Except Unit (List Char)) with
          | Except.error e => Except.error e
          | Except.ok l2 =>
            if l2 ≠ [] ∧ l2.length > 3 then Except.ok (some l2) else Except.ok none) = _
    rw [if_neg (by decide : ¬('€' = '.'))]
    show (if pyStrip (('â' :: '€' :: '¢' :: pyRstrip rest).drop 1) ≠ [] ∧
            (pyStrip (('â' :: '€' :: '¢' :: pyRstrip rest).drop 1)).length > 3
          then Except.ok (some (pyStrip (('â' :: '€' :: '¢' :: pyRstrip rest).drop 1)))
          else Except.ok none) = _
    have hdrop : ('â' :: '€' :: '¢' :: pyRstrip rest).drop 1
        = '€' :: '¢' :: pyRstrip rest := rfl
    have hps : pyStrip ('€' :: '¢' :: pyRstrip rest) = '€' :: '¢' :: pyRstrip rest := by
      rw [pyStrip_cons_nonspace _ _ (by decide), pyRstrip_cons_nonspace _ _ (by decide),
        pyRstrip_idem]
    rw [hdrop, hps]
  · intro rawLine h
    simp [parseLineE, h]
  · intro line hstrip hmark
    by_cases hnil : line = []
    · subst hnil; decide
    · simp only [parseLineE]
      rw [hstrip]
      rw [if_neg hnil, if_neg (by simp [hmark])]

/-- Witness for `C6_amended_parse`: instantiating clause (1) at the line
`"2. Chop wood"` and clause (2) at the line `"- Find trees"`. -/
theorem C6_amended_parse_witness :
    parseLineE ('2' :: '.' :: S " Chop wood") = .ok (some (S "Chop wood")) ∧
    parseLineE ('-' :: ' ' :: S "Find trees") = .ok (some (S "Find trees")) := by
  constructor
  · have h := C6_amended_parse.1 '2' (S " Chop wood") (by decide)
    rw [h]
    decide
  · have h := C6_amended_parse.2.1 '-' ' ' (S "Find trees") (by decide) (by decide) (by decide)
    rw [h]
    decide

/-! ## Claim C7 — fallback determinism of `generate_subgoals` -/

/-- C7: with the oracle disabled (`enabled` false, or no client),
`generate_subgoals("collect wood", state)` returns the fixed list
`["find trees", "chop wood", "gather resources", "return to base"]` for every
state argument and every injected backend, hence the same list on every
call. -/
theorem C7_fallback_determinism : ∀ (σ : Type) (g : SubGoalGenerator)
    (backend : Except Unit (List Char)) (st : Option σ),
    g.enabled = false ∨ g.hasClient = false →
    generate_subgoals g backend (S "collect wood") st
      = [S "find trees", S "chop wood", S "gather resources", S "return to base"] := by
  intro σ g backend st h
  have hcond : (!g.enabled || !g.hasClient) = true := by
    rcases h with h | h <;> simp [h]
  show (if (!g.enabled || !g.hasClient) = true then generateFallbackSubgoals (S "collect wood")
        else _) = _
  rw [if_pos hcond]
  decide

/-- Witness for `C7_fallback_determinism`. -/
theorem C7_fallback_determinism_witness :
    generate_subgoals ⟨false, false⟩ (.ok (S "anything")) (S "collect wood")
        (none : Option Unit)
      = [S "find trees", S "chop wood", S "gather resources", S "return to base"] :=
  C7_fallback_determinism Unit ⟨false, false⟩ (.ok (S "anything")) none (Or.inl rfl)

/-! ## Claim C9 — task-analysis complexity -/

/-- C9 (counterexample): the claim says `analyze_task` always returns a
complexity in `{simple, medium, complex}` derived from the word count; on an
empty backend response the code returns the string `"unknown"`, which is not
in that set (and, per the word-count rule, 0 words < 10 should give
`simple`). -/
theorem C9_counterexample :
    (analyze_task ⟨true, true⟩ (.ok []) (S "collect wood and craft")).complexity
      = S "unknown" ∧
    (analyze_task ⟨true, true⟩ (.ok []) (S "collect wood and craft")).complexity
      ∉ [S "simple", S "medium", S "complex"] := by
  exact ⟨by decide, by decide⟩

/-- C9 (amended): when the oracle path succeeds with a *non-empty* response,
`analyze_task` derives complexity from the word count of the response text
(&lt;10 words → simple, &lt;20 → medium, else complex), which lies in
`{simple, medium, complex}`; an empty response yields `"unknown"`, and with
the oracle disabled the fallback returns the constant `"medium"` (not a
word-count-derived value). -/
theorem C9_amended_complexity : ∀ (g : SubGoalGenerator) (resp task : List Char),
    (g.enabled = true → g.hasClient = true → resp ≠ [] →
      (analyze_task g (.ok resp) task).complexity =
        (if (pySplitWS (pyLower resp)).length < 10 then S "simple"
         else if (pySplitWS (pyLower resp)).length < 20 then S "medium"
         else S "complex") ∧
      (analyze_task g (.ok resp) task).complexity
        ∈ [S "simple", S "medium", S "complex"]) ∧
    (g.enabled = true → g.hasClient = true →
      (analyze_task g (.ok []) task).complexity = S "unknown") ∧
    ((g.enabled = false ∨ g.hasClient = false) →
      (analyze_task g (.ok resp) task).complexity = S "medium") := by
  intro g resp task
  refine ⟨?_, ?_, ?_⟩
  · intro he hc hresp
    have hval : analyze_task g (.ok resp) task =
        { task := task, analysis := resp, complexity := estimateComplexity resp,
          estimated_steps := estimateSteps resp } := by
      show (if (!g.enabled || !g.hasClient) = true then analyzeTaskFallback task
            else _) = _
      rw [if_neg (by simp [he, hc])]
    have hunfold : estimateComplexity resp =
        (if (pySplitWS (pyLower resp)).length < 10 then S "simple"
         else if (pySplitWS (pyLower resp)).length < 20 then S "medium"
         else S "complex") := by
      rw [estimateComplexity, if_neg hresp]
    rw [hval]
    refine ⟨hunfold, ?_⟩
    show estimateComplexity resp ∈ _
    rw [hunfold]
    split
    · simp
    · split <;> simp
  · intro he hc
    have hval : analyze_task g (.ok []) task =
        { task := task, analysis := [], complexity := estimateComplexity [],
          estimated_steps := estimateSteps [] } := by
      show (if (!g.enabled || !g.hasClient) = true then analyzeTaskFallback task
            else _) = _
      rw [if_neg (by simp [he, hc])]
    rw [hval]
    show estimateComplexity [] = S "unknown"
    decide
  · intro h
    have hg : (!g.enabled || !g.hasClient) = true := by
      rcases h with h | h <;> simp [h]
    show (if (!g.enabled || !g.hasClient) = true then analyzeTaskFallback task
          else _).complexity = _
    rw [if_pos hg]
    rfl

/-- Witness for `C9_amended_complexity`: a 3-word response is classified
`simple`. -/
theorem C9_amended_complexity_witness :
    (analyze_task ⟨true, true⟩ (.ok (S "find the trees")) (S "collect wood")).complexity
      = S "simple" := by
  have h := ((C9_amended_complexity ⟨true, true⟩ (S "find the trees")
    (S "collect wood")).1 rfl rfl (by decide)).1
  rw [h]
  decide

/-! ## Claim C10 — parser partiality and its recovery -/

/-- C10: `_parse_subgoals` raises `IndexError` on a line consisting of a bare
`'-'` or `'*'` (the `line[1]` access), and `generate_subgoals` catches the
exception and returns the deterministic rule-table fallback, so no exception
escapes `generate_subgoals` for any response. -/
theorem C10_parse_error_recovery :
    parseSubgoalsE (S "-") = .error () ∧
    parseSubgoalsE (S "*") = .error () ∧
    (∀ (σ : Type) (g : SubGoalGenerator) (st : Option σ) (resp goal : List Char),
      parseSubgoalsE resp = .error () →
      generate_subgoals g (.ok resp) goal st = generateFallbackSubgoals goal) := by
  refine ⟨by decide, by decide, ?_⟩
  intro σ g st resp goal herr
  show (if (!g.enabled || !g.hasClient) = true then generateFallbackSubgoals goal
        else match parseSubgoalsE resp with
          | .error _ => generateFallbackSubgoals goal
          | .ok subgoals => subgoals.take 5) = _
  rw [herr]
  split <;> rfl

/-- Witness for `C10_parse_error_recovery`: the bad response `"-"` is
recovered into the `"collect wood"` fallback list. -/
theorem C10_parse_error_recovery_witness :
    generate_subgoals ⟨true, true⟩ (.ok (S "-")) (S "collect wood") (none : Option Unit)
      = generateFallbackSubgoals (S "collect wood") :=
  C10_parse_error_recovery.2.2 Unit ⟨true, true⟩ none (S "-") (S "collect wood") (by decide)

/-! ## Claim C3 — no construction-time validation (code bug) -/

/-- C3 (documenting the code bug): `Planner.__init__` accepts the invalid
config `{mcts_simulations: 0, subgoal_generation: {max_subgoals: 0}}` without
raising — the embedded constructor is a total function that simply stores the
invalid values — and the resulting planner silently degrades at call time:
`plan()` runs zero simulations and returns the fallback subgoal list (of
length 3 > `max_subgoals` = 0) instead of failing fast. -/
theorem C3_init_accepts_invalid_config :
    plannerInit cfgC3 true true
      = { enabled := true, mcts_simulations := 0, max_depth := 3,
          exploration_constant := 1, subgoal_enabled := false, max_subgoals := 0,
          llm := none } ∧
    plannerPlan (plannerInit cfgC3 true true) () (S "defeat zombie") (.ok [])
        (fun _ => 0) (fun _ _ => 0)
      = [S "find weapon", S "approach enemy", S "attack"] := by
  exact ⟨by decide, by decide⟩

/-! ## Claim C1 — what selection actually stops at -/

/-- C1 (counterexample): `c1Tree` has one child while the candidate set has
three actions, so it is *not* fully expanded with respect to the candidate
set; the claim says `select` must stop at (return) this node, but the code —
which evaluates `is_fully_expanded([])` — descends into the child and returns
it (`selectPath = [0] ≠ []`). -/
theorem C1_counterexample :
    c1Tree.children.length < c1Actions.length ∧
    c1Tree.is_fully_expanded c1Actions = false ∧
    selectPath 1 (c1Tree.visits + 1) c1Tree = [0] ∧
    selectPath 1 (c1Tree.visits + 1) c1Tree ≠ [] := by
  exact ⟨by decide, by decide, by decide, by decide⟩

/-- C1 (amended): during selection the fully-expanded test is evaluated
against the **empty** action list, which holds as soon as the loop guard
(`node.children` non-empty) holds; consequently selection never stops at a
node that still has children — whenever the descent terminates before its
fuel is exhausted the returned node is childless, and any node with at least
one child is descended past, regardless of the candidate action set. -/
theorem C1_amended_select_childless : ∀ (σ : Type) (ec : ℚ) (fuel : ℕ) (n : MCTSNode σ),
    ((selectPath ec fuel n).length < fuel →
      (nodeAt n (selectPath ec fuel n)).children = []) ∧
    (n.children ≠ [] → 0 < fuel → selectPath ec fuel n ≠ []) := by
  intro σ ec fuel
  induction fuel with
  | zero =>
    intro n
    exact ⟨fun h => absurd h (by simp), fun _ h => absurd h (by simp)⟩
  | succ fuel ih =>
    intro n
    obtain ⟨st, a, vi, val, d, cs⟩ := n
    constructor
    · intro hlen
      cases cs with
      | nil => rw [selectPath_leaf, nodeAt_nil]; rfl
      | cons c cs' =>
        rw [selectPath_cons] at hlen ⊢
        rw [nodeAt_cons]
        exact (ih _).1 (by simpa using hlen)
    · intro hne _
      cases cs with
      | nil => exact absurd rfl hne
      | cons c cs' =>
        rw [selectPath_cons]
        exact List.cons_ne_nil _ _

/-- Witness for `C1_amended_select_childless` at `c1Tree`. -/
theorem C1_amended_select_childless_witness :
    (nodeAt c1Tree (selectPath 1 2 c1Tree)).children = [] ∧
    selectPath 1 2 c1Tree ≠ [] := by
  refine ⟨(C1_amended_select_childless Unit 1 2 c1Tree).1 ?_,
    (C1_amended_select_childless Unit 1 2 c1Tree).2 ?_ ?_⟩
  · decide
  · exact List.cons_ne_nil _ _
  · decide

/-! ## Field-preservation lemmas for the tree-surgery functions -/

theorem backpropAt_visits (v : ℚ) (n : MCTSNode σ) (p : List ℕ) :
    (backpropAt v n p).visits = n.visits + 1 := by
  cases n with
  | mk st a vi val d cs => cases p <;> rfl

theorem backpropAt_depth (v : ℚ) (n : MCTSNode σ) (p : List ℕ) :
    (backpropAt v n p).depth = n.depth := by
  cases n with
  | mk st a vi val d cs => cases p <;> rfl

theorem backpropAt_action (v : ℚ) (n : MCTSNode σ) (p : List ℕ) :
    (backpropAt v n p).action = n.action := by
  cases n with
  | mk st a vi val d cs => cases p <;> rfl

theorem addChildAt_visits (x : List Char) (n : MCTSNode σ) (p : List ℕ) :
    (addChildAt x n p).visits = n.visits := by
  cases n with
  | mk st a vi val d cs => cases p <;> rfl

theorem addChildAt_depth (x : List Char) (n : MCTSNode σ) (p : List ℕ) :
    (addChildAt x n p).depth = n.depth := by
  cases n with
  | mk st a vi val d cs => cases p <;> rfl

theorem addChildAt_action (x : List Char) (n : MCTSNode σ) (p : List ℕ) :
    (addChildAt x n p).action = n.action := by
  cases n with
  | mk st a vi val d cs => cases p <;> rfl

theorem expandStep_fst_visits (subgoals : List (List Char)) (pick : ℕ) (root : MCTSNode σ)
    (path : List ℕ) : (expandStep subgoals pick root path).1.visits = root.visits := by
  unfold expandStep
  split
  · rfl
  · dsimp only
    split
    · rfl
    · exact addChildAt_visits _ _ _

theorem expandStep_fst_depth (subgoals : List (List Char)) (pick : ℕ) (root : MCTSNode σ)
    (path : List ℕ) : (expandStep subgoals pick root path).1.depth = root.depth := by
  unfold expandStep
  split
  · rfl
  · dsimp only
    split
    · rfl
    · exact addChildAt_depth _ _ _

/-- Zeta-unfolding of `planIteration`. -/
theorem planIteration_def (ec : ℚ) (maxDepth : Int) (subgoals : List (List Char))
    (pick : ℕ) (simVal : ℚ) (root : MCTSNode σ) :
    planIteration ec maxDepth subgoals pick simVal root =
      backpropAt simVal
        (if ((nodeAt root (selectPath ec (root.visits + 1) root)).depth : Int) < maxDepth then
          expandStep subgoals pick root (selectPath ec (root.visits + 1) root)
        else (root, selectPath ec (root.visits + 1) root)).1
        (if ((nodeAt root (selectPath ec (root.visits + 1) root)).depth : Int) < maxDepth then
          expandStep subgoals pick root (selectPath ec (root.visits + 1) root)
        else (root, selectPath ec (root.visits + 1) root)).2 := rfl

theorem planIteration_visits (ec : ℚ) (maxDepth : Int) (subgoals : List (List Char))
    (pick : ℕ) (simVal : ℚ) (root : MCTSNode σ) :
    (planIteration ec maxDepth subgoals pick simVal root).visits = root.visits + 1 := by
  rw [planIteration_def, backpropAt_visits]
  split
  · rw [expandStep_fst_visits]
  · rfl

theorem planIteration_depth (ec : ℚ) (maxDepth : Int) (subgoals : List (List Char))
    (pick : ℕ) (simVal : ℚ) (root : MCTSNode σ) :
    (planIteration ec maxDepth subgoals pick simVal root).depth = root.depth := by
  rw [planIteration_def, backpropAt_depth]
  split
  · rw [expandStep_fst_depth]
  · rfl

theorem planLoop_visits (ec : ℚ) (maxDepth : Int) (subgoals : List (List Char))
    (picks : ℕ → ℕ) (draws : ℕ → ℕ → ℚ) :
    ∀ (k i : ℕ) (root : MCTSNode σ),
    (planLoop ec maxDepth subgoals picks draws i k root).visits = root.visits + k := by
  intro k
  induction k with
  | zero => intro i root; rfl
  | succ k ih =>
    intro i root
    show (planLoop ec maxDepth subgoals picks draws (i + 1) k
      (planIteration ec maxDepth subgoals (picks i) (simulate (draws i)) root)).visits = _
    rw [ih, planIteration_visits]
    omega

/-! ## The single-path invariant of the planner's search trees -/

theorem getD_mem_or_default : ∀ (l : List α) (i : ℕ) (d : α), l.getD i d ∈ l ∨ l.getD i d = d
  | [], i, d => Or.inr (by cases i <;> rfl)
  | x :: xs, 0, d => Or.inl (by rw [List.getD_cons_zero]; exact List.mem_cons_self x xs)
  | x :: xs, i + 1, d => by
    rw [List.getD_cons_succ]
    rcases getD_mem_or_default xs i d with h | h
    · exact Or.inl (List.mem_cons_of_mem x h)
    · exact Or.inr h

theorem getD_head_mem (u : α) (us : List α) (i : ℕ) : (u :: us).getD i u ∈ u :: us := by
  rcases getD_mem_or_default (u :: us) i u with h | h
  · exact h
  · rw [h]; exact List.mem_cons_self u us

theorem bestChildIdx_singleton (f : MCTSNode σ → EReal) (c : MCTSNode σ) :
    bestChildIdx f c [] = 0 := rfl

/-- On a chain, selection walks through the unique child at every level and
returns the full path to the leaf (fuel permitting). -/
theorem chain_select (ec : ℚ) {allowed : List (List Char)} {maxD : Int} :
    ∀ {k : ℕ} {n : MCTSNode σ}, ChainBelow allowed maxD k n →
    ∀ {fuel : ℕ}, k < fuel → selectPath ec fuel n = List.replicate k 0 := by
  intro k n h
  induction h with
  | leaf st a vi val d => intro fuel _; rw [selectPath_leaf]; rfl
  | link st a vi val d c k hact hdepth hmax hc ih =>
    intro fuel hf
    obtain ⟨f, rfl⟩ : ∃ f, fuel = f + 1 := ⟨fuel - 1, by omega⟩
    rw [selectPath_cons, bestChildIdx_singleton]
    show 0 :: selectPath ec f c = _
    rw [ih (by omega), List.replicate_succ]

/-- The node at the end of a chain's spine is childless and sits `k` levels
below the chain's top. -/
theorem chain_nodeAt {allowed : List (List Char)} {maxD : Int} :
    ∀ {k : ℕ} {n : MCTSNode σ}, ChainBelow allowed maxD k n →
    (nodeAt n (List.replicate k 0)).children = [] ∧
    (nodeAt n (List.replicate k 0)).depth = n.depth + k := by
  intro k n h
  induction h with
  | leaf st a vi val d => exact ⟨rfl, rfl⟩
  | link st a vi val d c k hact hdepth hmax hc ih =>
    rw [List.replicate_succ, nodeAt_cons]
    show (nodeAt c (List.replicate k 0)).children = [] ∧
      (nodeAt c (List.replicate k 0)).depth = d + (k + 1)
    refine ⟨ih.1, ?_⟩
    rw [ih.2, hdepth]
    omega

/-- Backpropagation changes only `visits`/`value`, so it preserves the chain
shape along any path. -/
theorem backpropAt_chain {allowed : List (List Char)} {maxD : Int} (v : ℚ) :
    ∀ {k : ℕ} {n : MCTSNode σ}, ChainBelow allowed maxD k n →
    ∀ (p : List ℕ), ChainBelow allowed maxD k (backpropAt v n p) := by
  intro k n h
  induction h with
  | leaf st a vi val d =>
    intro p
    cases p with
    | nil => exact ChainBelow.leaf st a (vi + 1) (val + v) d
    | cons i rest =>
      have hb : backpropAt v (MCTSNode.mk st a vi val d []) (i :: rest)
          = MCTSNode.mk st a (vi + 1) (val + v) d [] := by
        simp [backpropAt, modifyIdx]
      rw [hb]
      exact ChainBelow.leaf st a (vi + 1) (val + v) d
  | link st a vi val d c k hact hdepth hmax hc ih =>
    intro p
    cases p with
    | nil => exact ChainBelow.link st a (vi + 1) (val + v) d c k hact hdepth hmax hc
    | cons i rest =>
      cases i with
      | zero =>
        show ChainBelow allowed maxD (k + 1)
          (.mk st a (vi + 1) (val + v) d [backpropAt v c rest])
        obtain ⟨x, hx, hax⟩ := hact
        exact ChainBelow.link st a (vi + 1) (val + v) d (backpropAt v c rest) k
          ⟨x, hx, by rw [backpropAt_action, hax]⟩
          (by rw [backpropAt_depth, hdepth]) hmax (ih rest)
      | succ i =>
        have hb : backpropAt v (MCTSNode.mk st a vi val d [c]) ((i + 1) :: rest)
            = MCTSNode.mk st a (vi + 1) (val + v) d [c] := by
          simp [backpropAt, modifyIdx]
        rw [hb]
        exact ChainBelow.link st a (vi + 1) (val + v) d c k hact hdepth hmax hc

/-- Attaching a new child (with an allowed action) at the leaf of a chain
extends the chain by one link, provided the leaf's depth is below the cap. -/
theorem chain_addChild {allowed : List (List Char)} {maxD : Int} {x : List Char}
    (hx : x ∈ allowed) :
    ∀ {k : ℕ} {n : MCTSNode σ}, ChainBelow allowed maxD k n →
    ((n.depth + k : ℕ) : Int) < maxD →
    ChainBelow allowed maxD (k + 1) (addChildAt x n (List.replicate k 0)) := by
  intro k n h
  induction h with
  | leaf st a vi val d =>
    intro hd
    show ChainBelow allowed maxD 1
      (.mk st a vi val d [.mk st (some x) 0 0 (d + 1) []])
    exact ChainBelow.link st a vi val d _ 0 ⟨x, hx, rfl⟩ rfl
      (by simpa using hd) (ChainBelow.leaf st (some x) 0 0 (d + 1))
  | link st a vi val d c k hact hdepth hmax hc ih =>
    intro hd
    rw [List.replicate_succ]
    show ChainBelow allowed maxD (k + 1 + 1)
      (.mk st a vi val d [addChildAt x c (List.replicate k 0)])
    obtain ⟨y, hy, hay⟩ := hact
    refine ChainBelow.link st a vi val d _ (k + 1)
      ⟨y, hy, by rw [addChildAt_action, hay]⟩
      (by rw [addChildAt_depth, hdepth]) hmax (ih ?_)
    rw [hdepth]
    show ((d : ℕ) + 1 + k : Int) < maxD
    have : ((d + (k + 1) : ℕ) : Int) < maxD := hd
    push_cast at this ⊢
    omega

/-- Along a chain whose top has depth 0, the number of links is bounded by
the depth cap (a link is only created below a node of depth `< maxD`). -/
theorem chain_k_bound {allowed : List (List Char)} {maxD : Int} :
    ∀ {k : ℕ} {n : MCTSNode σ}, ChainBelow allowed maxD k n →
    k = 0 ∨ ((n.depth : Int) + k - 1 < maxD) := by
  intro k n h
  induction h with
  | leaf st a vi val d => exact Or.inl rfl
  | link st a vi val d c k hact hdepth hmax hc ih =>
    right
    show (d : Int) + (k + 1) - 1 < maxD
    rcases ih with rfl | hlt
    · push_cast
      omega
    · rw [hdepth] at hlt
      push_cast at hlt ⊢
      omega

/-- `expand` at a childless node with a non-empty action set: no action is
represented yet, so the whole action set is available and the chosen one is
attached as a new child (whose index is 0). -/
theorem expandStep_at_childless (u : List Char) (us : List (List Char)) (pick : ℕ)
    (root : MCTSNode σ) (path : List ℕ) (h : (nodeAt root path).children = []) :
    expandStep (u :: us) pick root path =
      (addChildAt ((u :: us).getD (pick % (u :: us).length) u) root path, path ++ [0]) := by
  unfold expandStep
  rw [if_neg (List.cons_ne_nil u us)]
  dsimp only
  rw [h]
  have hfilter : List.filter
      (fun a => decide ¬(List.map MCTSNode.action ([] : List (MCTSNode σ))).contains
        (some a) = true) (u :: us) = u :: us := by
    apply List.filter_eq_self.mpr
    intro a _
    simp
  rw [hfilter]
  rfl

/-- One MCTS iteration of the planner preserves the single-path invariant:
the tree stays a chain over the candidate set, its top keeps depth 0, and the
number of links never exceeds the top's visit count. -/
theorem planIteration_inv (ec : ℚ) (maxD : Int) (sg : List (List Char)) (pick : ℕ)
    (sv : ℚ) {n : MCTSNode σ} (hd0 : n.depth = 0) {k : ℕ} (hkv : k ≤ n.visits)
    (h : ChainBelow sg maxD k n) :
    (planIteration ec maxD sg pick sv n).depth = 0 ∧
    ∃ k', k' ≤ (planIteration ec maxD sg pick sv n).visits ∧
      ChainBelow sg maxD k' (planIteration ec maxD sg pick sv n) := by
  refine ⟨by rw [planIteration_depth, hd0], ?_⟩
  rw [planIteration_visits]
  have hsel : selectPath ec (n.visits + 1) n = List.replicate k 0 :=
    chain_select ec h (by omega)
  have hleaf := chain_nodeAt h
  have hdleaf : (nodeAt n (List.replicate k 0)).depth = k := by
    rw [hleaf.2, hd0]
    omega
  rw [planIteration_def, hsel]
  by_cases hguard : ((nodeAt n (List.replicate k 0)).depth : Int) < maxD
  · rw [if_pos hguard]
    cases sg with
    | nil =>
      have hexp : expandStep ([] : List (List Char)) pick n (List.replicate k 0)
          = (n, List.replicate k 0) := rfl
      rw [hexp]
      exact ⟨k, by omega, backpropAt_chain sv h _⟩
    | cons u us =>
      rw [expandStep_at_childless u us pick n (List.replicate k 0) hleaf.1]
      have hx : (u :: us).getD (pick % (u :: us).length) u ∈ u :: us :=
        getD_head_mem u us _
      have hchain' := chain_addChild hx h
        (by rw [hd0]; simpa [hdleaf] using hguard)
      refine ⟨k + 1, by omega, ?_⟩
      have hrep : List.replicate k 0 ++ [0] = List.replicate (k + 1) 0 :=
        (List.replicate_succ' k 0).symm
      rw [hrep]
      exact backpropAt_chain sv hchain' _
  · rw [if_neg hguard]
    exact ⟨k, by omega, backpropAt_chain sv h _⟩

/-- The planner's whole MCTS loop preserves the single-path invariant. -/
theorem planLoop_inv (ec : ℚ) (maxD : Int) (sg : List (List Char)) (picks : ℕ → ℕ)
    (draws : ℕ → ℕ → ℚ) :
    ∀ (nIter i : ℕ) (n : MCTSNode σ), n.depth = 0 →
    (∃ k, k ≤ n.visits ∧ ChainBelow sg maxD k n) →
    (planLoop ec maxD sg picks draws i nIter n).depth = 0 ∧
    ∃ k, k ≤ (planLoop ec maxD sg picks draws i nIter n).visits ∧
      ChainBelow sg maxD k (planLoop ec maxD sg picks draws i nIter n) := by
  intro nIter
  induction nIter with
  | zero => intro i n hd0 hk; exact ⟨hd0, hk⟩
  | succ m ih =>
    intro i n hd0 hk
    obtain ⟨k, hkv, hchain⟩ := hk
    obtain ⟨hd1, hk1⟩ := planIteration_inv ec maxD sg (picks i) (simulate (draws i))
      hd0 hkv hchain
    exact ih (i + 1) _ hd1 hk1

theorem extractPlan_zero (n : MCTSNode σ) : extractPlan 0 n = [] := rfl

theorem extractPlan_leaf (fuel : ℕ) (st : σ) (a : Option (List Char)) (vi : ℕ) (val : ℚ)
    (d : ℕ) : extractPlan fuel (.mk st a vi val d []) = [] := by
  cases fuel <;> rfl

theorem maxByVisits_singleton (c : MCTSNode σ) : maxByVisits c [] = c := rfl

theorem extractPlan_cons (fuel : ℕ) (st : σ) (a : Option (List Char)) (vi : ℕ) (val : ℚ)
    (d : ℕ) (c : MCTSNode σ) (cs : List (MCTSNode σ)) :
    extractPlan (fuel + 1) (.mk st a vi val d (c :: cs)) =
      (match (maxByVisits c cs).action with
       | some x => if x = [] then [] else [x]
       | none => []) ++ extractPlan fuel (maxByVisits c cs) := rfl

/-- Extraction from a chain yields only actions of the chain (hence of the
candidate set) and at most one action per link. -/
theorem chain_extract {allowed : List (List Char)} {maxD : Int} :
    ∀ {k : ℕ} {n : MCTSNode σ}, ChainBelow allowed maxD k n →
    ∀ (fuel : ℕ), (∀ x ∈ extractPlan fuel n, x ∈ allowed) ∧
      (extractPlan fuel n).length ≤ k := by
  intro k n h
  induction h with
  | leaf st a vi val d =>
    intro fuel
    rw [extractPlan_leaf]
    exact ⟨fun x hx => absurd hx (List.not_mem_nil x), by simp⟩
  | link st a vi val d c k hact hdepth hmax hc ih =>
    intro fuel
    cases fuel with
    | zero =>
      rw [extractPlan_zero]
      exact ⟨fun x hx => absurd hx (List.not_mem_nil x), by simp⟩
    | succ f =>
      rw [extractPlan_cons, maxByVisits_singleton]
      obtain ⟨x, hx, hax⟩ := hact
      rw [hax]
      have hifdef : (match some x with
          | some z => if z = [] then ([] : List (List Char)) else [z]
          | none => []) = (if x = [] then ([] : List (List Char)) else [x]) := rfl
      rw [hifdef]
      constructor
      · intro y hy
        rcases List.mem_append.mp hy with hy1 | hy2
        · by_cases hxe : x = []
          · rw [if_pos hxe] at hy1; cases hy1
          · rw [if_neg hxe] at hy1
            have hyx : y = x := by simpa using hy1
            rw [hyx]; exact hx
        · exact ((ih f).1) y hy2
      · rw [List.length_append]
        have h2 := (ih f).2
        by_cases hxe : x = []
        · rw [if_pos hxe]
          simp only [List.length_nil]
          omega
        · rw [if_neg hxe]
          simp only [List.length_singleton]
          omega

/-- Properties of the extraction-or-fallback step of
`_refine_plan_with_mcts`, for a final tree satisfying the chain invariant:
the result is non-empty, draws only from the candidate set, and is no longer
than the larger of the candidate count and the depth cap. -/
theorem refine_core {sg : List (List Char)} (hsg : sg ≠ []) {maxD : Int}
    {F : MCTSNode σ} (hdep : F.depth = 0) {k : ℕ} (hchain : ChainBelow sg maxD k F) :
    (if extractPlan (F.visits + 1) F = [] then sg else extractPlan (F.visits + 1) F) ≠ [] ∧
    (∀ x ∈ (if extractPlan (F.visits + 1) F = [] then sg
            else extractPlan (F.visits + 1) F), x ∈ sg) ∧
    (if extractPlan (F.visits + 1) F = [] then sg
     else extractPlan (F.visits + 1) F).length ≤ max sg.length maxD.toNat := by
  have hext := chain_extract hchain (F.visits + 1)
  have hkb : k ≤ maxD.toNat := by
    rcases chain_k_bound hchain with rfl | hlt
    · omega
    · rw [hdep] at hlt
      omega
  by_cases hb : extractPlan (F.visits + 1) F = []
  · rw [if_pos hb]
    exact ⟨hsg, fun x hx => hx, le_max_left _ _⟩
  · rw [if_neg hb]
    exact ⟨hb, hext.1, le_trans (le_trans hext.2 hkb) (le_max_right _ _)⟩

/-- `_refine_plan_with_mcts` on a non-empty subgoal list: the result is
non-empty, draws only from the subgoal list, and is no longer than the larger
of the subgoal count and the planner's depth cap. -/
theorem refine_props (p : Planner) (obs : σ) (sg : List (List Char)) (picks : ℕ → ℕ)
    (draws : ℕ → ℕ → ℚ) (hsg : sg ≠ []) :
    refinePlanWithMCTS p obs sg picks draws ≠ [] ∧
    (∀ x ∈ refinePlanWithMCTS p obs sg picks draws, x ∈ sg) ∧
    (refinePlanWithMCTS p obs sg picks draws).length
      ≤ max sg.length p.max_depth.toNat := by
  have hre : refinePlanWithMCTS p obs sg picks draws =
      (if extractPlan
            ((planLoop p.exploration_constant p.max_depth sg picks draws 0
              p.mcts_simulations.toNat (mkRoot obs)).visits + 1)
            (planLoop p.exploration_constant p.max_depth sg picks draws 0
              p.mcts_simulations.toNat (mkRoot obs)) = []
        then sg
        else extractPlan
            ((planLoop p.exploration_constant p.max_depth sg picks draws 0
              p.mcts_simulations.toNat (mkRoot obs)).visits + 1)
            (planLoop p.exploration_constant p.max_depth sg picks draws 0
              p.mcts_simulations.toNat (mkRoot obs))) := by
    unfold refinePlanWithMCTS
    rw [if_neg hsg]
  obtain ⟨hdep, k, hkv, hchain⟩ := planLoop_inv p.exploration_constant p.max_depth sg
    picks draws p.mcts_simulations.toNat 0 (mkRoot obs) rfl
    ⟨0, Nat.zero_le _, ChainBelow.leaf obs none 0 0 0⟩
  rw [hre]
  exact refine_core hsg hdep hchain

/-! ## Claim C8 — visit conservation -/

/-- C8: after the planner's MCTS loop completes `N = mcts_simulations`
iterations (as a loop count, `toNat` of the stored integer) starting from a
fresh root, the root's `visits` counter equals exactly `N`: every
backpropagation passes through the root and increments its `visits` by one,
whether or not the iteration expanded a node. -/
theorem C8_visit_conservation : ∀ (σ : Type) (p : Planner) (obs : σ)
    (subgoals : List (List Char)) (picks : ℕ → ℕ) (draws : ℕ → ℕ → ℚ),
    (planLoop p.exploration_constant p.max_depth subgoals picks draws 0
      p.mcts_simulations.toNat (mkRoot obs)).visits = p.mcts_simulations.toNat := by
  intro σ p obs subgoals picks draws
  rw [planLoop_visits]
  show 0 + _ = _
  omega

/-! ## Claim C2 — the planner's trees are single paths -/

/-- C2: because selection's fully-expanded check is made against the empty
list, every tree the planner's loop builds is a single path: `ChainBelow`
states that each node has at most one child, each link's action is drawn from
the (full) subgoal list and its depth is the parent's plus one.  Moreover the
extracted plan can repeat a subgoal: with a one-element subgoal list, two
simulations under a depth cap of 2 yield the plan `["attack", "attack"]`. -/
theorem C2_single_path_tree :
    (∀ (σ : Type) (obs : σ) (ec : ℚ) (maxD : Int) (subgoals : List (List Char))
        (picks : ℕ → ℕ) (draws : ℕ → ℕ → ℚ) (nIter i : ℕ),
      ∃ k, ChainBelow subgoals maxD k
        (planLoop ec maxD subgoals picks draws i nIter (mkRoot obs))) ∧
    refinePlanWithMCTS (σ := Unit) ⟨true, 2, 2, 1, false, 5, none⟩ () [S "attack"]
        (fun _ => 0) (fun _ _ => 0) = [S "attack", S "attack"] := by
  constructor
  · intro σ obs ec maxD subgoals picks draws nIter i
    obtain ⟨-, k, -, hchain⟩ := planLoop_inv ec maxD subgoals picks draws nIter i
      (mkRoot obs) rfl ⟨0, Nat.zero_le _, ChainBelow.leaf obs none 0 0 0⟩
    exact ⟨k, hchain⟩
  · decide

/-! ## Claim C4 — the end-to-end "defeat zombie" scenario -/

/-- C4: with subgoal generation disabled, goal `"defeat zombie"`,
`mcts_simulations = 50`, `max_depth = 3`, `exploration_constant = 1.0` (and
`max_subgoals` at its default 5), `plan()` returns a non-empty list whose
elements are drawn only from
`{"find weapon", "approach enemy", "attack"}` and whose length is at most
`max_subgoals`, for every observation, backend and random stream. -/
theorem C4_defeat_zombie_plan : ∀ (σ : Type) (obs : σ)
    (backend : Except Unit (List Char)) (picks : ℕ → ℕ) (draws : ℕ → ℕ → ℚ),
    plannerPlan pC4 obs (S "defeat zombie") backend picks draws ≠ [] ∧
    (∀ x ∈ plannerPlan pC4 obs (S "defeat zombie") backend picks draws,
      x ∈ [S "find weapon", S "approach enemy", S "attack"]) ∧
    (plannerPlan pC4 obs (S "defeat zombie") backend picks draws).length
      ≤ pC4.max_subgoals.toNat := by
  intro σ obs backend picks draws
  have hsg : plannerGenerateSubgoals pC4 obs (S "defeat zombie") backend
      = [S "find weapon", S "approach enemy", S "attack"] := by
    unfold plannerGenerateSubgoals
    rw [show pC4.llm = none by decide]
    show generateBasicSubgoals (S "defeat zombie") = _
    decide
  have hplan : plannerPlan pC4 obs (S "defeat zombie") backend picks draws =
      refinePlanWithMCTS pC4 obs [S "find weapon", S "approach enemy", S "attack"]
        picks draws := by
    unfold plannerPlan
    rw [if_neg (by decide : ¬(!pC4.enabled) = true)]
    dsimp only
    rw [hsg, if_pos (by decide : ([S "find weapon", S "approach enemy", S "attack"]
      : List (List Char)) ≠ [])]
  rw [hplan]
  obtain ⟨hne, hmem, hlen⟩ := refine_props pC4 obs
    [S "find weapon", S "approach enemy", S "attack"] picks draws (by decide)
  refine ⟨hne, hmem, le_trans hlen ?_⟩
  decide

/-! ## Claim C5 — the replanning policy of `update_plan` -/

/-- C5: `update_plan` returns exactly `plan(state, "recover from failure")`
when the reward is negative and the no-new-plan signal `None` when it is
non-negative; and when the planner is enabled and the subgoal lookup for
`"recover from failure"` is non-empty, the returned plan is non-empty. -/
theorem C5_update_plan : ∀ (σ : Type) (p : Planner) (st : σ) (act : List Char)
    (reward : ℚ) (backend : Except Unit (List Char)) (picks : ℕ → ℕ)
    (draws : ℕ → ℕ → ℚ),
    (reward < 0 →
      updatePlan p st act reward backend picks draws
        = some (plannerPlan p st (S "recover from failure") backend picks draws)) ∧
    (0 ≤ reward → updatePlan p st act reward backend picks draws = none) ∧
    (reward < 0 → p.enabled = true →
      plannerGenerateSubgoals p st (S "recover from failure") backend ≠ [] →
      ∀ pl, updatePlan p st act reward backend picks draws = some pl → pl ≠ []) := by
  intro σ p st act reward backend picks draws
  refine ⟨?_, ?_, ?_⟩
  · intro h
    unfold updatePlan
    rw [if_pos h]
  · intro h
    unfold updatePlan
    rw [if_neg (not_lt.mpr h)]
  · intro h he hsg pl hpl
    unfold updatePlan at hpl
    rw [if_pos h] at hpl
    have hpl' : pl = plannerPlan p st (S "recover from failure") backend picks draws :=
      (Option.some_inj.mp hpl).symm
    rw [hpl']
    have hpp : plannerPlan p st (S "recover from failure") backend picks draws =
        refinePlanWithMCTS p st
          (plannerGenerateSubgoals p st (S "recover from failure") backend) picks draws := by
      unfold plannerPlan
      rw [if_neg (by simp [he]), if_pos hsg]
    rw [hpp]
    exact (refine_props p st _ picks draws hsg).1

/-- Witness for `C5_update_plan`: a concrete planner replans to a concrete
non-empty plan on reward `-1` and signals "no new plan" on reward `1`. -/
theorem C5_update_plan_witness :
    updatePlan (⟨true, 1, 1, 1, false, 5, none⟩ : Planner) () (S "a") (-1) (.ok [])
        (fun _ => 0) (fun _ _ => 0)
      = some (plannerPlan (⟨true, 1, 1, 1, false, 5, none⟩ : Planner) ()
          (S "recover from failure") (.ok []) (fun _ => 0) (fun _ _ => 0)) ∧
    updatePlan (⟨true, 1, 1, 1, false, 5, none⟩ : Planner) () (S "a") 1 (.ok [])
        (fun _ => 0) (fun _ _ => 0) = none := by
  refine ⟨(C5_update_plan Unit ⟨true, 1, 1, 1, false, 5, none⟩ () (S "a") (-1) (.ok [])
      (fun _ => 0) (fun _ _ => 0)).1 (by norm_num),
    (C5_update_plan Unit ⟨true, 1, 1, 1, false, 5, none⟩ () (S "a") 1 (.ok [])
      (fun _ => 0) (fun _ _ => 0)).2.1 (by norm_num)⟩
